import Mathlib

/-!
Verification of the khabar news-ingestion pipeline against its specification.

The development shallowly embeds the pipeline's core functions:
recency filtering (`news_rss_scraper.is_recent`, `news_google_scraper.is_recent`),
batch deduplication (`dedupe_rss.build_master_csv`, `dedupe_rss.build_master_json`,
`dedupe_google_weekly.build_master_csv`, `local_dedupe_rss.build_master_csv`),
run-level deduplication (the seen-URL / seen-title-date suppression in the scrapers'
main loops), keyword trigger matching (`find_keywords` / `normalize`), the window
selectors (`most_recent_friday`, `filter_files_for_week`,
`find_latest_deduped_end_date`, `determine_start_date`) and the tiered fetcher
(`fetch_feed_with_timeout`, `fetch_with_playwright`).

Dates are embedded as integers counting days (with an explicit civil-calendar
conversion `toDays` used for concrete instances); text is embedded as `String`
with all operations re-implemented over the underlying character lists so that
every definition evaluates inside the kernel.
-/

/-! ## Recency filter (news_rss_scraper.is_recent / news_google_scraper.is_recent) -/

namespace Recency

/-- `DAYS_LIMIT = 1` from both scrapers' configuration. -/
def DAYS_LIMIT : Int := 1

/-- Embedding of `is_recent` from `news_rss_scraper.py` (lines 121-142) and
`news_google_scraper.py` (lines 126-155); the two bodies are identical.
The publication-date string has already been reduced by `dateutil.parser.parse`
followed by `.date()` to either a calendar date (`some` the date, counted in
days) or a parse failure (`none`, covering both a `None` result and a raised
exception); `today` is the current calendar date in the same day count. -/
def is_recent (parsed : Option Int) (today : Int) : Bool :=
  match parsed with
  | none => false
  | some pub_date =>
    let past_days := today - pub_date
    if 0 ≤ past_days ∧ past_days ≤ DAYS_LIMIT then true
    else if pub_date - today = 1 then true
    else false

end Recency

/-! ## Batch deduplicator (dedupe_rss / dedupe_google_weekly / local_dedupe_rss)

A CSV row as produced by `csv.DictReader` is an association list from header
names to cell values; `getField` is `row.get(k, "") or ""` (missing keys and
`None` both give the empty string). The three `build_master_csv` functions are
one function parametrised by the module's `FIELDS` list. -/

namespace Dedupe

/-- `FIELDS` of `dedupe_rss.py`. -/
def RSS_FIELDS : List String :=
  ["trigger_keywords", "title", "snippet", "date_published", "source_domain", "url"]

/-- `FIELDS` of `dedupe_google_weekly.py`. -/
def GOOGLE_FIELDS : List String :=
  ["keywords", "title", "snippet", "date_published", "source_domain", "url", "in_roundup"]

/-- `FIELDS` of `local_dedupe_rss.py`. -/
def LOCAL_FIELDS : List String :=
  ["keywords", "title", "snippet", "date_published", "source_domain", "url"]

/-- One parsed CSV data row: header-name / cell-value pairs. -/
abbrev Row := List (String × String)

/-- `row.get(k, "") or ""`. -/
def getField (row : Row) (k : String) : String :=
  match row.lookup k with
  | some v => v
  | none => ""

/-- Python `str.strip` whitespace set (ASCII fragment). -/
def isSpaceChar (c : Char) : Bool :=
  c = ' ' || c = '\t' || c = '\n' || c = '\r' || c = '\x0b' || c = '\x0c'

/-- `str.strip()` re-implemented over the character list. -/
def pyStrip (s : String) : String :=
  ⟨((s.data.dropWhile isSpaceChar).reverse.dropWhile isSpaceChar).reverse⟩

/-- The identity key: `tuple((row.get(k, "") or "").strip() for k in FIELDS)`. -/
def identity (FIELDS : List String) (row : Row) : List String :=
  FIELDS.map (fun k => pyStrip (getField row k))

/-- The stored output row: `{k: row.get(k, "") for k in FIELDS}` — original
(untrimmed) values, restricted to the `FIELDS` columns. -/
def outputRow (FIELDS : List String) (row : Row) : Row :=
  FIELDS.map (fun k => (k, getField row k))

/-- One input CSV file: its header (`reader.fieldnames`) and its data rows. -/
structure CsvFile where
  header : List String
  rows : List Row

/-- `[k for k in FIELDS if k not in (reader.fieldnames or [])]`. -/
def missingFields (FIELDS : List String) (header : List String) : List String :=
  FIELDS.filter (fun k => ! header.contains k)

/-- Accumulator of the dedup loop: the `seen` identity set, the `unique_rows`
list and the `total_rows` counter. -/
structure BuildState where
  seen : List (List String)
  uniqueRows : List Row
  totalRows : Nat

/-- The body of `for row in reader:` in `build_master_csv`. -/
def processRow (FIELDS : List String) (st : BuildState) (row : Row) : BuildState :=
  let st := { st with totalRows := st.totalRows + 1 }
  let idy := identity FIELDS row
  if idy ∈ st.seen then st
  else { st with seen := idy :: st.seen,
                 uniqueRows := st.uniqueRows ++ [outputRow FIELDS row] }

/-- The file loop of `build_master_csv`: check the header of each file in
order (a missing required field raises `ValueError`, aborting the whole
build), then fold its rows into the accumulator. -/
def buildGo (FIELDS : List String) (st : BuildState) :
    List CsvFile → Except String BuildState
  | [] => .ok st
  | fp :: rest =>
    if missingFields FIELDS fp.header ≠ [] then
      .error "missing expected fields"
    else
      buildGo FIELDS (fp.rows.foldl (processRow FIELDS) st) rest

/-- `build_master_csv(csv_files, out_path)`: on success, the rows written to
`out_path` together with `(unique_count, total_rows_read, duplicate_count)`.
The Python writes the output file only after the loop over all input files
has finished, so a `ValueError` in any file means no output is written:
the `.error` case carries no rows at all. -/
def build_master_csv (FIELDS : List String) (files : List CsvFile) :
    Except String (List Row × Nat × Nat) :=
  match buildGo FIELDS ⟨[], [], 0⟩ files with
  | .error e => .error e
  | .ok st => .ok (st.uniqueRows, st.totalRows, st.totalRows - st.uniqueRows.length)

/-- Re-reading the CSV file that `build_master_csv` wrote: the header is
exactly `FIELDS` and each data row binds the `FIELDS` names to the stored
values, which is precisely the stored association lists. -/
def writtenFile (FIELDS : List String) (rows : List Row) : CsvFile :=
  ⟨FIELDS, rows⟩

/-- A top-level JSON array element: an object with (flat, string-valued)
fields, or any non-object element. -/
inductive JsonVal where
  | obj (fields : List (String × String))
  | nonObj
deriving DecidableEq

/-- Byte-wise `≤` on strings (the sort order of `json.dumps(sort_keys=True)`),
re-implemented over character lists so it evaluates in the kernel. -/
def charListLe : List Char → List Char → Bool
  | [], _ => true
  | _ :: _, [] => false
  | a :: as, b :: bs =>
    if a < b then true else if b < a then false else charListLe as bs

/-- Insert a key/value pair into a key-sorted association list. -/
def insertSorted (p : String × String) :
    List (String × String) → List (String × String)
  | [] => [p]
  | q :: qs => if charListLe p.1.data q.1.data then p :: q :: qs
               else q :: insertSorted p qs

/-- `canonicalize_json_obj(obj) = json.dumps(obj, sort_keys=True, ...)`:
for an object with string fields the serialization is determined by, and
determines, the key-sorted field list, so the canonical form is embedded as
that sorted association list. -/
def canonicalize_json_obj (obj : List (String × String)) : List (String × String) :=
  obj.foldr insertSorted []

/-- Accumulator of the JSON dedup loop. -/
structure JBuildState where
  seen : List (List (String × String))
  uniqueObjs : List (List (String × String))
  totalObjs : Nat

/-- The body of `for obj in data:` in `build_master_json`: non-dict elements
are skipped without counting; dict elements are counted and deduplicated by
canonical form. -/
def processObj (st : JBuildState) (v : JsonVal) : JBuildState :=
  match v with
  | .nonObj => st
  | .obj o =>
    let st := { st with totalObjs := st.totalObjs + 1 }
    let key := canonicalize_json_obj o
    if key ∈ st.seen then st
    else { st with seen := key :: st.seen, uniqueObjs := st.uniqueObjs ++ [o] }

/-- `build_master_json(json_files, out_path)`: each input file is a top-level
JSON list; returns the objects written plus
`(unique_count, total_objects_read, duplicate_count)`. -/
def build_master_json (files : List (List JsonVal)) :
    List (List (String × String)) × Nat × Nat :=
  let st := files.foldl (fun st data => data.foldl processObj st) ⟨[], [], 0⟩
  (st.uniqueObjs, st.totalObjs, st.totalObjs - st.uniqueObjs.length)

end Dedupe

/-! ## Run-level deduplicator (the scrapers' main loops)

`news_rss_scraper.main` (lines 269-274) and `news_google_scraper.main`
(lines 272-280) suppress repeats inside one run: an entry that survived the
recency and keyword filters carries a resolved, stripped URL and a
(lowercased title, ISO date) pair, and is emitted only when neither was
emitted before. -/

namespace RunDedup

/-- An entry at the run-level dedup stage: its resolved URL (`link.strip()`)
and its `(title.lower(), date_iso)` pair. -/
structure Entry where
  url : String
  titleDate : String × String
deriving DecidableEq

/-- The scraper loop's dedup state: `seen_urls`, `seen_titles` (named
`seen_title_date` in the Google scraper) and the `all_articles` output. -/
structure RunState where
  seen_urls : List String
  seen_titles : List (String × String)
  emitted : List Entry

/-- One iteration of the dedup check: `if ukey in seen_urls or unique_id in
seen_titles: continue`, else add to both sets and append the article. -/
def runDedupStep (st : RunState) (e : Entry) : RunState :=
  if e.url ∈ st.seen_urls ∨ e.titleDate ∈ st.seen_titles then st
  else ⟨e.url :: st.seen_urls, e.titleDate :: st.seen_titles, st.emitted ++ [e]⟩

/-- Processing a run's entries in order from the empty state. -/
def runDedup (es : List Entry) : RunState :=
  es.foldl runDedupStep ⟨[], [], []⟩

end RunDedup

/-! ## Tolerant feed parser stage (per-feed handling after a successful fetch) -/

namespace ParseStage

/-- What `feedparser.parse` returned for one feed: the entry count and the
malformed-feed metadata (`bozo`, `bozo_exception`, the latter `none` when the
attribute is `None` / absent). -/
structure ParseResult where
  entriesCount : Nat
  bozo : Bool
  bozoExc : Option String

/-- An error-log row of `news_rss_scraper` (`feed_url, error_type,
error_message`). -/
structure ErrorRecord where
  feed_url : String
  error_type : String
  error_message : String
deriving DecidableEq

/-- An error-log row of `news_google_scraper` (`feed_url, keywords,
error_type, error_message`). -/
structure GErrorRecord where
  feed_url : String
  keywords : String
  error_type : String
  error_message : String
deriving DecidableEq

/-- `str(bozo_exception)`: Python renders `None` as the string `"None"`. -/
def strOfExc : Option String → String
  | some e => e
  | none => "None"

/-- `news_rss_scraper.main` lines 222-240: zero entries append a `parse`
error record and skip the feed (`continue`); otherwise the feed's
entries are processed, with at most a printed warning when `bozo` is set.
Returns the records appended at this stage and whether the feed's entries
are processed. -/
def rss_parse_step (feed_url : String) (d : ParseResult) :
    List ErrorRecord × Bool :=
  if d.entriesCount = 0 then
    ([⟨feed_url, "parse", strOfExc d.bozoExc⟩], false)
  else
    ([], true)

/-- `news_google_scraper.main` lines 230-248: on zero entries the feed is
skipped, but an error record is appended only under `if bozo_exception:`
(a present exception object is truthy, `None` is falsy); otherwise the
entries are processed. -/
def google_parse_step (feed_url keywords : String) (d : ParseResult) :
    List GErrorRecord × Bool :=
  if d.entriesCount = 0 then
    (match d.bozoExc with
     | some exc => [⟨feed_url, keywords, "parse", exc⟩]
     | none => [],
     false)
  else
    ([], true)

end ParseStage

/-! ## Tiered fetcher (news_rss_scraper) -/

namespace Fetch

/-- Outcome of one HTTP client call (`requests.get` + `raise_for_status`, or
`scraper.get` + `raise_for_status`): a body, an `HTTPError` with a status
code, or any other exception. -/
inductive HttpOutcome where
  | success (content : String)
  | httpError (status : Nat) (msg : String)
  | exn (msg : String)
deriving DecidableEq

/-- Outcome of the Playwright `page.request.get` call: an OK response body,
a non-OK status, or an exception anywhere in the block. -/
inductive PwOutcome where
  | ok (content : String)
  | badStatus (status : Nat)
  | exn (msg : String)
deriving DecidableEq

/-- The network's responses to the three tiers for one feed URL. -/
structure FetchEnv where
  direct : HttpOutcome
  cloudscraper : HttpOutcome
  playwright : PwOutcome

/-- `_is_hardened(target_url)`: the normalized URL is in the hardened-feed
URL set, or its domain is in the hardened-domain set. -/
def _is_hardened (normUrl domain : String)
    (hardenedUrls hardenedDomains : List String) : Bool :=
  hardenedUrls.contains normUrl || hardenedDomains.contains domain

/-- `fetch_with_playwright` (lines 165-181), collapsed onto the call's
outcome: an OK response returns its body, a non-OK status or an exception
returns `(None, message)` — here the `.error` case. -/
def fetch_with_playwright (o : PwOutcome) : Except String String :=
  match o with
  | .ok c => .ok c
  | .badStatus s => .error ("Playwright request failed: " ++ toString s)
  | .exn m => .error ("Playwright failed: " ++ m)

/-- `fetch_feed_with_timeout` (lines 145-163): a hardened URL goes straight
to Playwright; otherwise a direct request is made, and only an `HTTPError`
with status 403 escalates to the cloudscraper tier (whose own failure of any
kind yields the cloudscraper error message). -/
def fetch_feed_with_timeout (hardened : Bool) (env : FetchEnv) :
    Except String String :=
  if hardened then fetch_with_playwright env.playwright
  else
    match env.direct with
    | .success c => .ok c
    | .httpError status msg =>
      if status = 403 then
        match env.cloudscraper with
        | .success c => .ok c
        | .httpError _ m => .error ("Cloudscraper failed: " ++ m)
        | .exn m => .error ("Cloudscraper failed: " ++ m)
      else .error ("Requests failed: " ++ msg)
    | .exn m => .error ("Requests exception: " ++ m)

/-- `main` lines 208-219: a fetch failure appends an error record with
`error_type = "fetch"` and skips to the next feed (`continue`); a success
goes on to parsing. Returns the updated error log and whether this feed
proceeds to the parse stage. -/
def fetch_stage (feed_url : String) (hardened : Bool) (env : FetchEnv)
    (error_log : List ParseStage.ErrorRecord) :
    List ParseStage.ErrorRecord × Bool :=
  match fetch_feed_with_timeout hardened env with
  | .error msg => (error_log ++ [⟨feed_url, "fetch", msg⟩], false)
  | .ok _ => (error_log, true)

end Fetch

/-! ## Calendar dates

Dates are embedded as integers counting days since 1970-01-01, with
`toDays` translating a civil `YYYY-MM-DD` date into that count
(the standard days-from-civil computation; all quantities involved are
nonnegative for the dates appearing here, so `Int` division agrees with the
algorithm's floor division). `datetime.date.weekday()` (Monday = 0) becomes
`weekday`; 1970-01-01 was a Thursday, index 3. -/

namespace Calendar

/-- Days since 1970-01-01 of the civil date `y-m-d`. -/
def toDays (y m d : Int) : Int :=
  let y' := if m ≤ 2 then y - 1 else y
  let era := (if 0 ≤ y' then y' else y' - 399) / 400
  let yoe := y' - era * 400
  let mp := (m + 9) % 12
  let doy := (153 * mp + 2) / 5 + d - 1
  let doe := yoe * 365 + yoe / 4 - yoe / 100 + doy
  era * 146097 + doe - 719468

/-- `date.weekday()`: Monday = 0 .. Sunday = 6. -/
def weekday (days : Int) : Int :=
  (days + 3) % 7

end Calendar

/-! ## Fixed-week window selector (dedupe_google_weekly) -/

namespace Weekly

/-- `most_recent_friday(on_or_before)` from `dedupe_google_weekly.py`
lines 32-38: `on_or_before - timedelta(days=(weekday - 4) % 7)`. -/
def most_recent_friday (on_or_before : Int) : Int :=
  on_or_before - (Calendar.weekday on_or_before - 4) % 7

/-- `filter_files_for_week(entries, week_ending, window_days)` from
lines 58-76: raises on a nonpositive window, otherwise keeps the entries
whose embedded date lies in
`[week_ending - (window_days - 1), week_ending]`. -/
def filter_files_for_week (entries : List (Int × String)) (week_ending : Int)
    (window_days : Int := 7) : Except String (List (Int × String)) :=
  if window_days ≤ 0 then .error "window_days must be positive"
  else
    let start_date := week_ending - (window_days - 1)
    .ok (entries.filter (fun e => start_date ≤ e.1 ∧ e.1 ≤ week_ending))

end Weekly

/-! ## Incremental window selector (local_dedupe_rss) -/

namespace LocalDedupe

/-- `find_latest_deduped_end_date(folder)` from `local_dedupe_rss.py`
lines 45-54, over the end dates extracted from the rollup files whose names
match `deduped_candidate_articles_<start>_to_<end>.csv`: the running
maximum, `none` when no such file exists. -/
def find_latest_deduped_end_date (ends : List Int) : Option Int :=
  ends.foldl
    (fun latest_end end_dt =>
      match latest_end with
      | none => some end_dt
      | some l => if end_dt > l then some end_dt else latest_end)
    none

/-- `determine_start_date(csv_entries, cli_start)` from lines 57-69:
an explicit CLI start wins; else the day after the latest deduped end date;
else the embedded date of the first entry of `csv_entries` (which the caller
built sorted ascending by date, so the earliest daily file). -/
def determine_start_date (csv_entries : List (Int × String))
    (cli_start : Option Int) (rollup_ends : List Int) : Int :=
  match cli_start with
  | some s => s
  | none =>
    match find_latest_deduped_end_date rollup_ends with
    | some latest_end => latest_end + 1
    | none => (csv_entries.headD (0, "")).1

/-- `main` line 129: the daily files selected for the run are those dated on
or after the start date. -/
def selected_entries (csv_entries : List (Int × String)) (start_dt : Int) :
    List (Int × String) :=
  csv_entries.filter (fun e => start_dt ≤ e.1)

end LocalDedupe

/-! ## Keyword trigger matcher (news_rss_scraper.normalize / find_keywords)

Text is embedded over its character list. Python's `\w` for the texts in
scope is alphanumeric-or-underscore; `unicodedata.normalize("NFKC", ...)`
is the identity on that repertoire and is embedded as such. `re.search` of
`\b<escaped literal>\b` succeeds iff the literal occurs at some position
with a word/non-word boundary on each side. -/

namespace Keywords

/-- `\w`: a word character. -/
def isWordChar (c : Char) : Bool := c.isAlphanum || c = '_'

/-- The quote characters removed by `normalize`:
`re.sub(r'(\w)[\"\x27“”‘’]+(?=\s|\x24)', r'\1', text)`. -/
def isQuoteChar (c : Char) : Bool :=
  c = '"' || c = '\'' || c = '“' || c = '”' || c = '‘' || c = '’'

/-- Does the list start with a quote character. -/
def headIsQuote : List Char → Bool
  | [] => false
  | c :: _ => isQuoteChar c

/-- After dropping the leading quote run, is the rest empty or headed by
whitespace (the `(?=\s|\x24)` lookahead). -/
def afterQuoteRunIsSpace (l : List Char) : Bool :=
  match l.dropWhile isQuoteChar with
  | [] => true
  | c :: _ => Dedupe.isSpaceChar c

/-- Left-to-right scan of `re.sub(r'(\w)[quotes]+(?=\s|\x24)', r'\1', text)`:
a maximal quote run preceded by a word character and followed by whitespace
or the end of the text is deleted; scanning resumes after the deleted run.
The fuel argument (initially the list length, which always suffices because
every step consumes at least one character) makes the recursion structural. -/
def subQuotesGo : Nat → List Char → List Char
  | _, [] => []
  | 0, l => l
  | fuel + 1, c :: cs =>
    if isWordChar c && headIsQuote cs && afterQuoteRunIsSpace cs then
      c :: subQuotesGo fuel (cs.dropWhile isQuoteChar)
    else
      c :: subQuotesGo fuel cs

/-- The quote-noise substitution of `normalize` (line 95). -/
def subQuotes (l : List Char) : List Char := subQuotesGo l.length l

/-- Left-to-right scan of `re.sub(r'(\w),(?=\s|\x24)', r'\1', text)`
(line 96): a single comma preceded by a word character and followed by
whitespace or the end of the text is deleted. -/
def subComma : List Char → List Char
  | [] => []
  | [c] => [c]
  | c :: d :: cs =>
    if isWordChar c && (d == ',') && (cs.isEmpty || Dedupe.isSpaceChar (cs.headD ' ')) then
      c :: subComma cs
    else
      c :: subComma (d :: cs)

/-- `normalize(text)` (lines 93-97): NFKC (identity on the embedded
repertoire), lowercase, then the two noise substitutions in order. -/
def normalize (text : String) : String :=
  ⟨subComma (subQuotes (text.data.map Char.toLower))⟩

/-- Is position `p` a word character (out-of-range counts as non-word). -/
def isWordCharAt (s : List Char) (p : Nat) : Bool :=
  match s.get? p with
  | some c => isWordChar c
  | none => false

/-- `\b` at position `p` of `s`: exactly one side of the position is a word
character. -/
def boundary (s : List Char) (p : Nat) : Bool :=
  ((decide (0 < p)) && isWordCharAt s (p - 1)) != isWordCharAt s p

/-- Does `pat` occur in `s` at position `i` with a `\b` on each side. -/
def matchAt (pat s : List Char) (i : Nat) : Bool :=
  decide (i + pat.length ≤ s.length) &&
  ((s.drop i).take pat.length == pat) &&
  boundary s i && boundary s (i + pat.length)

/-- `re.search(r'\b' + re.escape(pat) + r'\b', s) is not None`. -/
def re_search_word (pat s : List Char) : Bool :=
  (List.range (s.length + 1)).any (matchAt pat s)

/-- Specification-side statement of a whole-word boundary occurrence. -/
def OccursWholeWord (pat s : List Char) : Prop :=
  ∃ i, i + pat.length ≤ s.length ∧ (s.drop i).take pat.length = pat ∧
    boundary s i = true ∧ boundary s (i + pat.length) = true

/-- `kw.split("&")` for the one-character separator. -/
def splitAmp : List Char → List (List Char)
  | [] => [[]]
  | c :: cs =>
    let r := splitAmp cs
    if c = '&' then [] :: r
    else
      match r with
      | [] => [[c]]
      | h :: t => (c :: h) :: t

/-- `"&" in kw`. -/
def contains_amp (kw : String) : Bool := kw.data.contains '&'

/-- `[p.strip() for p in kw.split("&") if p.strip()]`. -/
def compound_parts (kw : String) : List String :=
  ((splitAmp kw.data).map (fun part => Dedupe.pyStrip ⟨part⟩)).filter
    (fun p => p ≠ "")

/-- `find_keywords(text, keywords)` (lines 99-114), as the sublist of
triggered keywords (the Python iterates a set and appends; only membership
in the result is determined). An empty text returns no triggers; a compound
keyword requires a nonempty part list all of whose parts match; a plain
keyword requires its own whole-word match against the normalized text. -/
def find_keywords (text : String) (keywords : List String) : List String :=
  if text = "" then []
  else
    let norm_text := normalize text
    keywords.filter (fun kw =>
      if contains_amp kw then
        let parts := compound_parts kw
        !parts.isEmpty && parts.all (fun p => re_search_word p.data norm_text.data)
      else
        re_search_word kw.data norm_text.data)

end Keywords

/-! ## Theorems -/

/-- C1: For every date string d, the recency filter admits d if and only if
d parses to a calendar date pub_date such that
0 ≤ (today − pub_date) in days ≤ DAYS_LIMIT, or (pub_date − today) equals
exactly 1 day; every string that cannot be parsed to a date is rejected. -/
theorem C1_recency_filter (parsed : Option Int) (today : Int) :
    Recency.is_recent parsed today = true ↔
      ∃ pub_date, parsed = some pub_date ∧
        ((0 ≤ today - pub_date ∧ today - pub_date ≤ Recency.DAYS_LIMIT) ∨
          pub_date - today = 1) := by
  cases parsed with
  | none => simp [Recency.is_recent]
  | some d =>
    have hd : Recency.is_recent (some d) today =
        (if 0 ≤ today - d ∧ today - d ≤ Recency.DAYS_LIMIT then true
         else if d - today = 1 then true else false) := rfl
    rw [hd]
    constructor
    · intro h
      refine ⟨d, rfl, ?_⟩
      split_ifs at h with h1 h2
      · exact Or.inl h1
      · exact Or.inr h2
    · rintro ⟨p, hp, hcase⟩
      obtain rfl : d = p := Option.some.inj hp
      split_ifs with h1 h2
      · rfl
      · rfl
      · rcases hcase with h | h
        · exact absurd h h1
        · exact absurd h h2

/-- Witness for C1 at a concrete input: a date one day in the future is
admitted. -/
theorem C1_recency_filter_witness :
    Recency.is_recent (some 20001) 20000 = true ↔
      ∃ pub_date, (some 20001 : Option Int) = some pub_date ∧
        ((0 ≤ (20000 : Int) - pub_date ∧ 20000 - pub_date ≤ Recency.DAYS_LIMIT) ∨
          pub_date - 20000 = 1) :=
  C1_recency_filter (some 20001) 20000

namespace Dedupe

theorem getField_outputRow (FIELDS : List String) (row : Row) (k : String)
    (hk : k ∈ FIELDS) : getField (outputRow FIELDS row) k = getField row k := by
  induction FIELDS with
  | nil => cases hk
  | cons f rest ih =>
    have hcons : outputRow (f :: rest) row =
        (f, getField row f) :: outputRow rest row := rfl
    rw [hcons]
    by_cases hkf : k = f
    · subst hkf
      show getField ((k, getField row k) :: outputRow rest row) k = getField row k
      simp [getField, List.lookup]
    · have hbeq : (k == f) = false := beq_false_of_ne hkf
      have : getField ((f, getField row f) :: outputRow rest row) k =
          getField (outputRow rest row) k := by
        simp [getField, List.lookup, hbeq]
      rw [this]
      exact ih (List.mem_of_ne_of_mem hkf hk)

theorem identity_outputRow (FIELDS : List String) (row : Row) :
    identity FIELDS (outputRow FIELDS row) = identity FIELDS row := by
  show List.map (fun k => pyStrip (getField (outputRow FIELDS row) k)) FIELDS =
      List.map (fun k => pyStrip (getField row k)) FIELDS
  exact List.map_congr_left fun k hk => by rw [getField_outputRow FIELDS row k hk]

theorem outputRow_outputRow (FIELDS : List String) (row : Row) :
    outputRow FIELDS (outputRow FIELDS row) = outputRow FIELDS row := by
  show List.map (fun k => (k, getField (outputRow FIELDS row) k)) FIELDS =
      List.map (fun k => (k, getField row k)) FIELDS
  exact List.map_congr_left fun k hk => by rw [getField_outputRow FIELDS row k hk]

theorem missingFields_self (FIELDS : List String) :
    missingFields FIELDS FIELDS = [] := by
  unfold missingFields
  rw [List.filter_eq_nil_iff]
  intro k hk
  simp [List.contains, List.elem_iff.mpr hk, hk]

theorem processRow_of_mem (FIELDS : List String) (st : BuildState) (row : Row)
    (hmem : identity FIELDS row ∈ st.seen) :
    processRow FIELDS st row = { st with totalRows := st.totalRows + 1 } := by
  unfold processRow
  simp [hmem]

theorem processRow_of_not_mem (FIELDS : List String) (st : BuildState) (row : Row)
    (hmem : identity FIELDS row ∉ st.seen) :
    processRow FIELDS st row =
      ⟨identity FIELDS row :: st.seen,
        st.uniqueRows ++ [outputRow FIELDS row], st.totalRows + 1⟩ := by
  unfold processRow
  simp [hmem]

theorem inv_processRow (FIELDS : List String) (st : BuildState) (row : Row)
    (h1 : ∀ key, key ∈ st.seen ↔ ∃ r ∈ st.uniqueRows, identity FIELDS r = key)
    (h2 : st.uniqueRows.Pairwise (fun a b => identity FIELDS a ≠ identity FIELDS b))
    (h3 : ∀ r ∈ st.uniqueRows, outputRow FIELDS r = r) :
    (∀ key, key ∈ (processRow FIELDS st row).seen ↔
        ∃ r ∈ (processRow FIELDS st row).uniqueRows, identity FIELDS r = key) ∧
    (processRow FIELDS st row).uniqueRows.Pairwise
      (fun a b => identity FIELDS a ≠ identity FIELDS b) ∧
    (∀ r ∈ (processRow FIELDS st row).uniqueRows, outputRow FIELDS r = r) := by
  by_cases hmem : identity FIELDS row ∈ st.seen
  · rw [processRow_of_mem FIELDS st row hmem]
    exact ⟨h1, h2, h3⟩
  · rw [processRow_of_not_mem FIELDS st row hmem]
    refine ⟨?_, ?_, ?_⟩
    · intro key
      constructor
      · intro hkey
        rcases List.mem_cons.mp hkey with rfl | hkey'
        · exact ⟨outputRow FIELDS row,
            List.mem_append_right _ (List.mem_singleton_self _),
            identity_outputRow FIELDS row⟩
        · obtain ⟨r, hr, hid⟩ := (h1 key).mp hkey'
          exact ⟨r, List.mem_append_left _ hr, hid⟩
      · rintro ⟨r, hr, hid⟩
        rcases List.mem_append.mp hr with hr' | hr'
        · exact List.mem_cons_of_mem _ ((h1 key).mpr ⟨r, hr', hid⟩)
        · rw [List.mem_singleton] at hr'
          subst hr'
          rw [identity_outputRow] at hid
          exact hid ▸ List.mem_cons_self _ _
    · rw [List.pairwise_append]
      refine ⟨h2, List.pairwise_singleton _ _, ?_⟩
      intro a ha b hb
      rw [List.mem_singleton] at hb
      subst hb
      rw [identity_outputRow]
      intro heq
      exact hmem (heq ▸ (h1 _).mpr ⟨a, ha, rfl⟩)
    · intro r hr
      rcases List.mem_append.mp hr with hr' | hr'
      · exact h3 r hr'
      · rw [List.mem_singleton] at hr'
        subst hr'
        exact outputRow_outputRow FIELDS row

theorem inv_foldl (FIELDS : List String) (rows : List Row) (st : BuildState)
    (h1 : ∀ key, key ∈ st.seen ↔ ∃ r ∈ st.uniqueRows, identity FIELDS r = key)
    (h2 : st.uniqueRows.Pairwise (fun a b => identity FIELDS a ≠ identity FIELDS b))
    (h3 : ∀ r ∈ st.uniqueRows, outputRow FIELDS r = r) :
    (∀ key, key ∈ (rows.foldl (processRow FIELDS) st).seen ↔
        ∃ r ∈ (rows.foldl (processRow FIELDS) st).uniqueRows, identity FIELDS r = key) ∧
    (rows.foldl (processRow FIELDS) st).uniqueRows.Pairwise
      (fun a b => identity FIELDS a ≠ identity FIELDS b) ∧
    (∀ r ∈ (rows.foldl (processRow FIELDS) st).uniqueRows, outputRow FIELDS r = r) := by
  induction rows generalizing st with
  | nil => exact ⟨h1, h2, h3⟩
  | cons row rest ih =>
    obtain ⟨g1, g2, g3⟩ := inv_processRow FIELDS st row h1 h2 h3
    exact ih (processRow FIELDS st row) g1 g2 g3

theorem buildGo_cons_ok (FIELDS : List String) (fp : CsvFile) (rest : List CsvFile)
    (st st' : BuildState) (h : buildGo FIELDS st (fp :: rest) = .ok st') :
    missingFields FIELDS fp.header = [] ∧
      buildGo FIELDS (fp.rows.foldl (processRow FIELDS) st) rest = .ok st' := by
  by_cases hmiss : missingFields FIELDS fp.header = []
  · refine ⟨hmiss, ?_⟩
    unfold buildGo at h
    simpa [hmiss] using h
  · exfalso
    unfold buildGo at h
    simp [hmiss] at h

theorem inv_buildGo (FIELDS : List String) (files : List CsvFile)
    (st st' : BuildState) (h : buildGo FIELDS st files = .ok st')
    (h1 : ∀ key, key ∈ st.seen ↔ ∃ r ∈ st.uniqueRows, identity FIELDS r = key)
    (h2 : st.uniqueRows.Pairwise (fun a b => identity FIELDS a ≠ identity FIELDS b))
    (h3 : ∀ r ∈ st.uniqueRows, outputRow FIELDS r = r) :
    (∀ key, key ∈ st'.seen ↔ ∃ r ∈ st'.uniqueRows, identity FIELDS r = key) ∧
    st'.uniqueRows.Pairwise (fun a b => identity FIELDS a ≠ identity FIELDS b) ∧
    (∀ r ∈ st'.uniqueRows, outputRow FIELDS r = r) := by
  induction files generalizing st with
  | nil =>
    obtain rfl : st = st' := by simpa [buildGo] using h
    exact ⟨h1, h2, h3⟩
  | cons fp rest ih =>
    obtain ⟨hmiss, h'⟩ := buildGo_cons_ok FIELDS fp rest st st' h
    obtain ⟨g1, g2, g3⟩ := inv_foldl FIELDS fp.rows st h1 h2 h3
    exact ih (fp.rows.foldl (processRow FIELDS) st) h' g1 g2 g3

theorem seen_processRow (FIELDS : List String) (st : BuildState) (row : Row)
    (key : List String) :
    key ∈ (processRow FIELDS st row).seen ↔
      key ∈ st.seen ∨ identity FIELDS row = key := by
  by_cases hmem : identity FIELDS row ∈ st.seen
  · rw [processRow_of_mem FIELDS st row hmem]
    constructor
    · exact Or.inl
    · rintro (h | rfl)
      · exact h
      · exact hmem
  · rw [processRow_of_not_mem FIELDS st row hmem]
    show key ∈ identity FIELDS row :: st.seen ↔ _
    rw [List.mem_cons]
    constructor
    · rintro (rfl | h)
      · exact Or.inr rfl
      · exact Or.inl h
    · rintro (h | rfl)
      · exact Or.inr h
      · exact Or.inl rfl

theorem seen_foldl (FIELDS : List String) (rows : List Row) (st : BuildState)
    (key : List String) :
    key ∈ (rows.foldl (processRow FIELDS) st).seen ↔
      key ∈ st.seen ∨ ∃ row ∈ rows, identity FIELDS row = key := by
  induction rows generalizing st with
  | nil => simp
  | cons row rest ih =>
    rw [List.foldl_cons, ih, seen_processRow]
    constructor
    · rintro ((h | h) | ⟨r, hr, hid⟩)
      · exact Or.inl h
      · exact Or.inr ⟨row, List.mem_cons_self _ _, h⟩
      · exact Or.inr ⟨r, List.mem_cons_of_mem _ hr, hid⟩
    · rintro (h | ⟨r, hr, hid⟩)
      · exact Or.inl (Or.inl h)
      · rcases List.mem_cons.mp hr with rfl | hr'
        · exact Or.inl (Or.inr hid)
        · exact Or.inr ⟨r, hr', hid⟩

theorem seen_buildGo (FIELDS : List String) (files : List CsvFile)
    (st st' : BuildState) (h : buildGo FIELDS st files = .ok st')
    (key : List String) :
    key ∈ st'.seen ↔
      key ∈ st.seen ∨ ∃ fp ∈ files, ∃ row ∈ fp.rows, identity FIELDS row = key := by
  induction files generalizing st with
  | nil =>
    obtain rfl : st = st' := by simpa [buildGo] using h
    simp
  | cons fp rest ih =>
    obtain ⟨hmiss, h'⟩ := buildGo_cons_ok FIELDS fp rest st st' h
    rw [ih (fp.rows.foldl (processRow FIELDS) st) h', seen_foldl]
    constructor
    · rintro ((h | ⟨row, hrow, hid⟩) | ⟨f, hf, row, hrow, hid⟩)
      · exact Or.inl h
      · exact Or.inr ⟨fp, List.mem_cons_self _ _, row, hrow, hid⟩
      · exact Or.inr ⟨f, List.mem_cons_of_mem _ hf, row, hrow, hid⟩
    · rintro (h | ⟨f, hf, row, hrow, hid⟩)
      · exact Or.inl (Or.inl h)
      · rcases List.mem_cons.mp hf with rfl | hf'
        · exact Or.inl (Or.inr ⟨row, hrow, hid⟩)
        · exact Or.inr ⟨f, hf', row, hrow, hid⟩

theorem foldl_fresh (FIELDS : List String) (rows : List Row) (st : BuildState)
    (hfix : ∀ r ∈ rows, outputRow FIELDS r = r)
    (hdist : rows.Pairwise (fun a b => identity FIELDS a ≠ identity FIELDS b))
    (hfresh : ∀ r ∈ rows, identity FIELDS r ∉ st.seen) :
    rows.foldl (processRow FIELDS) st =
      ⟨(rows.map (identity FIELDS)).reverse ++ st.seen,
        st.uniqueRows ++ rows, st.totalRows + rows.length⟩ := by
  induction rows generalizing st with
  | nil => simp
  | cons row rest ih =>
    rw [List.foldl_cons]
    have hmem : identity FIELDS row ∉ st.seen := hfresh row (List.mem_cons_self _ _)
    rw [processRow_of_not_mem FIELDS st row hmem,
      hfix row (List.mem_cons_self _ _)]
    rw [ih ⟨identity FIELDS row :: st.seen, st.uniqueRows ++ [row], st.totalRows + 1⟩
      (fun r hr => hfix r (List.mem_cons_of_mem _ hr))
      (List.pairwise_cons.mp hdist).2
      ?_]
    · simp [List.append_assoc, Nat.add_assoc, Nat.add_comm 1 rest.length]
    · intro r hr
      show identity FIELDS r ∉ identity FIELDS row :: st.seen
      rw [List.mem_cons]
      rintro (heq | hin)
      · exact (List.pairwise_cons.mp hdist).1 r hr heq.symm
      · exact hfresh r (List.mem_cons_of_mem _ hr) hin

theorem processObj_of_mem (st : JBuildState) (o : List (String × String))
    (hmem : canonicalize_json_obj o ∈ st.seen) :
    processObj st (.obj o) = { st with totalObjs := st.totalObjs + 1 } := by
  unfold processObj
  simp [hmem]

theorem processObj_of_not_mem (st : JBuildState) (o : List (String × String))
    (hmem : canonicalize_json_obj o ∉ st.seen) :
    processObj st (.obj o) =
      ⟨canonicalize_json_obj o :: st.seen, st.uniqueObjs ++ [o],
        st.totalObjs + 1⟩ := by
  unfold processObj
  simp [hmem]

theorem jinv_processObj (st : JBuildState) (v : JsonVal)
    (h1 : ∀ key, key ∈ st.seen ↔ ∃ o ∈ st.uniqueObjs, canonicalize_json_obj o = key)
    (h2 : st.uniqueObjs.Pairwise
      (fun a b => canonicalize_json_obj a ≠ canonicalize_json_obj b)) :
    (∀ key, key ∈ (processObj st v).seen ↔
        ∃ o ∈ (processObj st v).uniqueObjs, canonicalize_json_obj o = key) ∧
    (processObj st v).uniqueObjs.Pairwise
      (fun a b => canonicalize_json_obj a ≠ canonicalize_json_obj b) := by
  cases v with
  | nonObj => exact ⟨h1, h2⟩
  | obj o =>
    by_cases hmem : canonicalize_json_obj o ∈ st.seen
    · rw [processObj_of_mem st o hmem]
      exact ⟨h1, h2⟩
    · rw [processObj_of_not_mem st o hmem]
      refine ⟨?_, ?_⟩
      · intro key
        constructor
        · intro hkey
          rcases List.mem_cons.mp hkey with rfl | hkey'
          · exact ⟨o, List.mem_append_right _ (List.mem_singleton_self _), rfl⟩
          · obtain ⟨b, hb, hid⟩ := (h1 key).mp hkey'
            exact ⟨b, List.mem_append_left _ hb, hid⟩
        · rintro ⟨b, hb, hid⟩
          rcases List.mem_append.mp hb with hb' | hb'
          · exact List.mem_cons_of_mem _ ((h1 key).mpr ⟨b, hb', hid⟩)
          · rw [List.mem_singleton] at hb'
            subst hb'
            exact hid ▸ List.mem_cons_self _ _
      · rw [List.pairwise_append]
        refine ⟨h2, List.pairwise_singleton _ _, ?_⟩
        intro a ha b hb
        rw [List.mem_singleton] at hb
        subst hb
        intro heq
        exact hmem (heq ▸ (h1 _).mpr ⟨a, ha, rfl⟩)

theorem jinv_foldl (vals : List JsonVal) (st : JBuildState)
    (h1 : ∀ key, key ∈ st.seen ↔ ∃ o ∈ st.uniqueObjs, canonicalize_json_obj o = key)
    (h2 : st.uniqueObjs.Pairwise
      (fun a b => canonicalize_json_obj a ≠ canonicalize_json_obj b)) :
    (∀ key, key ∈ (vals.foldl processObj st).seen ↔
        ∃ o ∈ (vals.foldl processObj st).uniqueObjs, canonicalize_json_obj o = key) ∧
    (vals.foldl processObj st).uniqueObjs.Pairwise
      (fun a b => canonicalize_json_obj a ≠ canonicalize_json_obj b) := by
  induction vals generalizing st with
  | nil => exact ⟨h1, h2⟩
  | cons v rest ih =>
    obtain ⟨g1, g2⟩ := jinv_processObj st v h1 h2
    exact ih (processObj st v) g1 g2

theorem jinv_files (files : List (List JsonVal)) (st : JBuildState)
    (h1 : ∀ key, key ∈ st.seen ↔ ∃ o ∈ st.uniqueObjs, canonicalize_json_obj o = key)
    (h2 : st.uniqueObjs.Pairwise
      (fun a b => canonicalize_json_obj a ≠ canonicalize_json_obj b)) :
    (∀ key, key ∈ (files.foldl (fun st data => data.foldl processObj st) st).seen ↔
        ∃ o ∈ (files.foldl (fun st data => data.foldl processObj st) st).uniqueObjs,
          canonicalize_json_obj o = key) ∧
    (files.foldl (fun st data => data.foldl processObj st) st).uniqueObjs.Pairwise
      (fun a b => canonicalize_json_obj a ≠ canonicalize_json_obj b) := by
  induction files generalizing st with
  | nil => exact ⟨h1, h2⟩
  | cons data rest ih =>
    obtain ⟨g1, g2⟩ := jinv_foldl data st h1 h2
    exact ih (data.foldl processObj st) g1 g2

theorem jfoldl_fresh (objs : List (List (String × String))) (st : JBuildState)
    (hdist : objs.Pairwise
      (fun a b => canonicalize_json_obj a ≠ canonicalize_json_obj b))
    (hfresh : ∀ o ∈ objs, canonicalize_json_obj o ∉ st.seen) :
    (objs.map JsonVal.obj).foldl processObj st =
      ⟨(objs.map canonicalize_json_obj).reverse ++ st.seen,
        st.uniqueObjs ++ objs, st.totalObjs + objs.length⟩ := by
  induction objs generalizing st with
  | nil => simp
  | cons o rest ih =>
    rw [List.map_cons, List.foldl_cons]
    have hmem : canonicalize_json_obj o ∉ st.seen := hfresh o (List.mem_cons_self _ _)
    rw [processObj_of_not_mem st o hmem]
    rw [ih ⟨canonicalize_json_obj o :: st.seen, st.uniqueObjs ++ [o], st.totalObjs + 1⟩
      (List.pairwise_cons.mp hdist).2 ?_]
    · simp [List.append_assoc, Nat.add_assoc, Nat.add_comm 1 rest.length]
    · intro b hb
      show canonicalize_json_obj b ∉ canonicalize_json_obj o :: st.seen
      rw [List.mem_cons]
      rintro (heq | hin)
      · exact (List.pairwise_cons.mp hdist).1 b hb heq.symm
      · exact hfresh b (List.mem_cons_of_mem _ hb) hin

end Dedupe

/-- C2: The Batch Deduplicator is idempotent: for every output file it
produces (the CSV builders shared by dedupe_rss / dedupe_google_weekly /
local_dedupe_rss, and the JSON builder of dedupe_rss), running the
deduplicator again with that output as its single input yields exactly the
same records, and the reported duplicate count is zero. -/
theorem C2_batch_dedup_idempotent (FIELDS : List String)
    (files : List Dedupe.CsvFile) (rows : List Dedupe.Row) (tot dups : Nat)
    (jfiles : List (List Dedupe.JsonVal)) :
    (Dedupe.build_master_csv FIELDS files = .ok (rows, tot, dups) →
      Dedupe.build_master_csv FIELDS [Dedupe.writtenFile FIELDS rows] =
        .ok (rows, rows.length, 0)) ∧
    (∀ objs jtot jdups, Dedupe.build_master_json jfiles = (objs, jtot, jdups) →
      Dedupe.build_master_json [objs.map Dedupe.JsonVal.obj] =
        (objs, objs.length, 0)) := by
  constructor
  · intro h
    unfold Dedupe.build_master_csv at h
    rcases hbg : Dedupe.buildGo FIELDS ⟨[], [], 0⟩ files with e | st
    · rw [hbg] at h
      exact absurd h (by simp)
    · rw [hbg] at h
      simp only [Except.ok.injEq, Prod.mk.injEq] at h
      obtain ⟨hrows, htot, hdups⟩ := h
      obtain ⟨inv1, inv2, inv3⟩ :=
        Dedupe.inv_buildGo FIELDS files ⟨[], [], 0⟩ st hbg
          (by intro key; simp) (List.Pairwise.nil) (by intro r hr; cases hr)
      subst hrows
      unfold Dedupe.build_master_csv Dedupe.writtenFile Dedupe.buildGo
      rw [Dedupe.missingFields_self FIELDS]
      simp only [ne_eq, not_true_eq_false, if_false, reduceIte]
      rw [Dedupe.foldl_fresh FIELDS st.uniqueRows ⟨[], [], 0⟩ inv3 inv2
        (by intro r hr; exact fun hin => (List.not_mem_nil _ hin))]
      simp [Dedupe.buildGo]
  · intro objs jtot jdups h
    unfold Dedupe.build_master_json at h
    simp only [Prod.mk.injEq] at h
    obtain ⟨hobjs, htot, hdups⟩ := h
    obtain ⟨inv1, inv2⟩ :=
      Dedupe.jinv_files jfiles ⟨[], [], 0⟩ (by intro key; simp)
        (List.Pairwise.nil)
    subst hobjs
    unfold Dedupe.build_master_json
    rw [List.foldl_cons, List.foldl_nil]
    rw [Dedupe.jfoldl_fresh _ ⟨[], [], 0⟩ inv2
      (by intro o ho; exact fun hin => (List.not_mem_nil _ hin))]
    simp

/-- Witness for C2: a two-row input whose rows differ only in whitespace
collapses to one stored row; re-running on the written output returns it
unchanged with zero duplicates, for CSV and for JSON. -/
theorem C2_batch_dedup_idempotent_witness :
    Dedupe.build_master_csv Dedupe.RSS_FIELDS
      [⟨Dedupe.RSS_FIELDS, [[("title", "A ")], [("title", " A")]]⟩] =
      .ok ([[("trigger_keywords", ""), ("title", "A "), ("snippet", ""),
             ("date_published", ""), ("source_domain", ""), ("url", "")]], 2, 1) ∧
    Dedupe.build_master_csv Dedupe.RSS_FIELDS
      [Dedupe.writtenFile Dedupe.RSS_FIELDS
        [[("trigger_keywords", ""), ("title", "A "), ("snippet", ""),
          ("date_published", ""), ("source_domain", ""), ("url", "")]]] =
      .ok ([[("trigger_keywords", ""), ("title", "A "), ("snippet", ""),
             ("date_published", ""), ("source_domain", ""), ("url", "")]], 1, 0) ∧
    Dedupe.build_master_json
      [[.obj [("b", "2"), ("a", "1")], .obj [("b", "2"), ("a", "1")]]] =
      ([[("b", "2"), ("a", "1")]], 2, 1) ∧
    Dedupe.build_master_json [[Dedupe.JsonVal.obj [("b", "2"), ("a", "1")]]] =
      ([[("b", "2"), ("a", "1")]], 1, 0) :=
  ⟨rfl,
   (C2_batch_dedup_idempotent Dedupe.RSS_FIELDS
      [⟨Dedupe.RSS_FIELDS, [[("title", "A ")], [("title", " A")]]⟩]
      [[("trigger_keywords", ""), ("title", "A "), ("snippet", ""),
        ("date_published", ""), ("source_domain", ""), ("url", "")]] 2 1 []).1 rfl,
   rfl,
   (C2_batch_dedup_idempotent Dedupe.RSS_FIELDS [] [] 0 0
      [[.obj [("b", "2"), ("a", "1")], .obj [("b", "2"), ("a", "1")]]]).2
     [[("b", "2"), ("a", "1")]] 2 1 rfl⟩

namespace Dedupe

theorem build_master_csv_ok (FIELDS : List String) (files : List CsvFile)
    (rows : List Row) (tot dups : Nat)
    (h : build_master_csv FIELDS files = .ok (rows, tot, dups)) :
    ∃ st : BuildState,
      buildGo FIELDS ⟨[], [], 0⟩ files = .ok st ∧ st.uniqueRows = rows := by
  unfold build_master_csv at h
  rcases hbg : buildGo FIELDS ⟨[], [], 0⟩ files with e | st
  · rw [hbg] at h
    exact absurd h (by simp)
  · rw [hbg] at h
    simp only [Except.ok.injEq, Prod.mk.injEq] at h
    exact ⟨st, rfl, h.1⟩

theorem buildGo_error (FIELDS : List String) (files : List CsvFile)
    (st : BuildState)
    (h : ∃ fp ∈ files, missingFields FIELDS fp.header ≠ []) :
    buildGo FIELDS st files = .error "missing expected fields" := by
  induction files generalizing st with
  | nil =>
    obtain ⟨fp, hfp, _⟩ := h
    cases hfp
  | cons fp rest ih =>
    obtain ⟨f, hf, hfmiss⟩ := h
    by_cases hfp : missingFields FIELDS fp.header = []
    · unfold buildGo
      simp only [hfp, ne_eq, not_true_eq_false, if_false, reduceIte]
      apply ih
      rcases List.mem_cons.mp hf with rfl | hf'
      · exact absurd hfp hfmiss
      · exact ⟨f, hf', hfmiss⟩
    · unfold buildGo
      simp [hfp]

end Dedupe

/-- C3: For every list of input files and every permutation of that list,
the Batch Deduplicator's output contains the same set of identity keys
(tuples of whitespace-trimmed required-field values); only which duplicate
representative row is kept may depend on the input order. -/
theorem C3_batch_dedup_identity_set_invariant (FIELDS : List String)
    (files1 files2 : List Dedupe.CsvFile)
    (rows1 rows2 : List Dedupe.Row) (tot1 tot2 d1 d2 : Nat)
    (hperm : files1.Perm files2)
    (h1 : Dedupe.build_master_csv FIELDS files1 = .ok (rows1, tot1, d1))
    (h2 : Dedupe.build_master_csv FIELDS files2 = .ok (rows2, tot2, d2))
    (key : List String) :
    (∃ r ∈ rows1, Dedupe.identity FIELDS r = key) ↔
      (∃ r ∈ rows2, Dedupe.identity FIELDS r = key) := by
  obtain ⟨st1, hbg1, hr1⟩ := Dedupe.build_master_csv_ok FIELDS files1 rows1 tot1 d1 h1
  obtain ⟨st2, hbg2, hr2⟩ := Dedupe.build_master_csv_ok FIELDS files2 rows2 tot2 d2 h2
  obtain ⟨inv11, _, _⟩ :=
    Dedupe.inv_buildGo FIELDS files1 ⟨[], [], 0⟩ st1 hbg1
      (by intro key; simp) List.Pairwise.nil (by intro r hr; cases hr)
  obtain ⟨inv21, _, _⟩ :=
    Dedupe.inv_buildGo FIELDS files2 ⟨[], [], 0⟩ st2 hbg2
      (by intro key; simp) List.Pairwise.nil (by intro r hr; cases hr)
  subst hr1
  subst hr2
  rw [← inv11 key, ← inv21 key,
    Dedupe.seen_buildGo FIELDS files1 _ st1 hbg1 key,
    Dedupe.seen_buildGo FIELDS files2 _ st2 hbg2 key]
  have hnil : key ∈ (⟨[], [], 0⟩ : Dedupe.BuildState).seen ↔ False := by simp
  rw [hnil]
  simp only [false_or]
  constructor <;> rintro ⟨fp, hfp, hw⟩
  · exact ⟨fp, hperm.subset hfp, hw⟩
  · exact ⟨fp, hperm.symm.subset hfp, hw⟩

/-- Witness for C3: the same duplicate pair fed in the two file orders keeps
different representatives (untrimmed values differ) but yields the same
identity key set. -/
theorem C3_batch_dedup_identity_set_invariant_witness :
    Dedupe.build_master_csv Dedupe.RSS_FIELDS
      [⟨Dedupe.RSS_FIELDS, [[("title", "A ")]]⟩,
       ⟨Dedupe.RSS_FIELDS, [[("title", " A")]]⟩] =
      .ok ([[("trigger_keywords", ""), ("title", "A "), ("snippet", ""),
             ("date_published", ""), ("source_domain", ""), ("url", "")]], 2, 1) ∧
    Dedupe.build_master_csv Dedupe.RSS_FIELDS
      [⟨Dedupe.RSS_FIELDS, [[("title", " A")]]⟩,
       ⟨Dedupe.RSS_FIELDS, [[("title", "A ")]]⟩] =
      .ok ([[("trigger_keywords", ""), ("title", " A"), ("snippet", ""),
             ("date_published", ""), ("source_domain", ""), ("url", "")]], 2, 1) ∧
    ((∃ r ∈ [[("trigger_keywords", ""), ("title", "A "), ("snippet", ""),
              ("date_published", ""), ("source_domain", ""), ("url", "")]],
        Dedupe.identity Dedupe.RSS_FIELDS r = ["", "A", "", "", "", ""]) ↔
      (∃ r ∈ [[("trigger_keywords", ""), ("title", " A"), ("snippet", ""),
               ("date_published", ""), ("source_domain", ""), ("url", "")]],
        Dedupe.identity Dedupe.RSS_FIELDS r = ["", "A", "", "", "", ""])) :=
  ⟨rfl, rfl,
   C3_batch_dedup_identity_set_invariant Dedupe.RSS_FIELDS
     [⟨Dedupe.RSS_FIELDS, [[("title", "A ")]]⟩,
      ⟨Dedupe.RSS_FIELDS, [[("title", " A")]]⟩]
     [⟨Dedupe.RSS_FIELDS, [[("title", " A")]]⟩,
      ⟨Dedupe.RSS_FIELDS, [[("title", "A ")]]⟩]
     [[("trigger_keywords", ""), ("title", "A "), ("snippet", ""),
       ("date_published", ""), ("source_domain", ""), ("url", "")]]
     [[("trigger_keywords", ""), ("title", " A"), ("snippet", ""),
       ("date_published", ""), ("source_domain", ""), ("url", "")]]
     2 2 1 1
     (List.Perm.swap (Dedupe.CsvFile.mk Dedupe.RSS_FIELDS [[("title", " A")]])
       (Dedupe.CsvFile.mk Dedupe.RSS_FIELDS [[("title", "A ")]]) [])
     rfl rfl ["", "A", "", "", "", ""]⟩

/-- C5: For every list of input CSV files, if any file's header is missing
any required field name, the Batch Deduplicator raises an error and writes
no output file at all (no partial output), even when files earlier in the
list were read successfully. -/
theorem C5_schema_error_aborts_batch (FIELDS : List String)
    (files : List Dedupe.CsvFile)
    (h : ∃ fp ∈ files, Dedupe.missingFields FIELDS fp.header ≠ []) :
    Dedupe.build_master_csv FIELDS files = .error "missing expected fields" := by
  unfold Dedupe.build_master_csv
  rw [Dedupe.buildGo_error FIELDS files _ h]

/-- Witness for C5: a well-formed first file followed by a file missing a
required header aborts the whole batch. -/
theorem C5_schema_error_aborts_batch_witness :
    Dedupe.build_master_csv Dedupe.RSS_FIELDS
      [⟨Dedupe.RSS_FIELDS, [[("title", "ok")]]⟩, ⟨["title"], []⟩] =
      .error "missing expected fields" :=
  C5_schema_error_aborts_batch Dedupe.RSS_FIELDS
    [⟨Dedupe.RSS_FIELDS, [[("title", "ok")]]⟩, ⟨["title"], []⟩]
    (by decide)

namespace RunDedup

theorem runDedupStep_of_seen (st : RunState) (e : Entry)
    (h : e.url ∈ st.seen_urls ∨ e.titleDate ∈ st.seen_titles) :
    runDedupStep st e = st := by
  unfold runDedupStep
  simp [h]

theorem runDedupStep_of_fresh (st : RunState) (e : Entry)
    (h : ¬(e.url ∈ st.seen_urls ∨ e.titleDate ∈ st.seen_titles)) :
    runDedupStep st e =
      ⟨e.url :: st.seen_urls, e.titleDate :: st.seen_titles,
        st.emitted ++ [e]⟩ := by
  unfold runDedupStep
  simp only [h, if_neg, not_false_iff]

theorem runDedup_go (es : List Entry) (st : RunState)
    (h1 : ∀ u, u ∈ st.seen_urls ↔ ∃ a ∈ st.emitted, a.url = u)
    (h2 : ∀ k, k ∈ st.seen_titles ↔ ∃ a ∈ st.emitted, a.titleDate = k)
    (h3 : st.emitted.Pairwise
      (fun a b => a.url ≠ b.url ∧ a.titleDate ≠ b.titleDate)) :
    (∀ u, u ∈ (es.foldl runDedupStep st).seen_urls ↔
        ∃ a ∈ (es.foldl runDedupStep st).emitted, a.url = u) ∧
    (∀ k, k ∈ (es.foldl runDedupStep st).seen_titles ↔
        ∃ a ∈ (es.foldl runDedupStep st).emitted, a.titleDate = k) ∧
    (es.foldl runDedupStep st).emitted.Pairwise
      (fun a b => a.url ≠ b.url ∧ a.titleDate ≠ b.titleDate) ∧
    ∃ kept : List Entry, kept.Sublist es ∧
      (es.foldl runDedupStep st).emitted = st.emitted ++ kept := by
  induction es generalizing st with
  | nil => exact ⟨h1, h2, h3, [], List.Sublist.refl _, by simp⟩
  | cons e rest ih =>
    rw [List.foldl_cons]
    by_cases hseen : e.url ∈ st.seen_urls ∨ e.titleDate ∈ st.seen_titles
    · rw [runDedupStep_of_seen st e hseen]
      obtain ⟨g1, g2, g3, kept, hsub, hemit⟩ := ih st h1 h2 h3
      exact ⟨g1, g2, g3, kept, hsub.cons e, hemit⟩
    · rw [runDedupStep_of_fresh st e hseen]
      push_neg at hseen
      have k1 : ∀ u, u ∈ e.url :: st.seen_urls ↔
          ∃ a ∈ st.emitted ++ [e], a.url = u := by
        intro u
        rw [List.mem_cons]
        constructor
        · rintro (rfl | hu)
          · exact ⟨e, List.mem_append_right _ (List.mem_singleton_self _), rfl⟩
          · obtain ⟨a, ha, hau⟩ := (h1 u).mp hu
            exact ⟨a, List.mem_append_left _ ha, hau⟩
        · rintro ⟨a, ha, hau⟩
          rcases List.mem_append.mp ha with ha' | ha'
          · exact Or.inr ((h1 u).mpr ⟨a, ha', hau⟩)
          · rw [List.mem_singleton] at ha'
            subst ha'
            exact Or.inl hau.symm
      have k2 : ∀ k, k ∈ e.titleDate :: st.seen_titles ↔
          ∃ a ∈ st.emitted ++ [e], a.titleDate = k := by
        intro k
        rw [List.mem_cons]
        constructor
        · rintro (rfl | hk)
          · exact ⟨e, List.mem_append_right _ (List.mem_singleton_self _), rfl⟩
          · obtain ⟨a, ha, hak⟩ := (h2 k).mp hk
            exact ⟨a, List.mem_append_left _ ha, hak⟩
        · rintro ⟨a, ha, hak⟩
          rcases List.mem_append.mp ha with ha' | ha'
          · exact Or.inr ((h2 k).mpr ⟨a, ha', hak⟩)
          · rw [List.mem_singleton] at ha'
            subst ha'
            exact Or.inl hak.symm
      have k3 : (st.emitted ++ [e]).Pairwise
          (fun a b => a.url ≠ b.url ∧ a.titleDate ≠ b.titleDate) := by
        rw [List.pairwise_append]
        refine ⟨h3, List.pairwise_singleton _ _, ?_⟩
        intro a ha b hb
        rw [List.mem_singleton] at hb
        subst hb
        constructor
        · intro heq
          exact hseen.1 ((h1 b.url).mpr ⟨a, ha, heq⟩)
        · intro heq
          exact hseen.2 ((h2 b.titleDate).mpr ⟨a, ha, heq⟩)
      obtain ⟨g1, g2, g3, kept, hsub, hemit⟩ :=
        ih ⟨e.url :: st.seen_urls, e.titleDate :: st.seen_titles,
          st.emitted ++ [e]⟩ k1 k2 k3
      refine ⟨g1, g2, g3, e :: kept, hsub.cons₂ e, ?_⟩
      rw [hemit]
      simp

end RunDedup

/-- C4: Within a single ingestion run, an entry is discarded if and only if
its resolved URL equals that of an already-emitted article or its
(lowercased title, published date) pair equals that of an already-emitted
article — so after every entry is processed, the emitted articles have
pairwise-distinct URLs and pairwise-distinct (lowercased title, date)
pairs, and the first occurrence in processing order is the one kept. -/
theorem C4_run_level_dedup (es : List RunDedup.Entry) :
    (∀ u, u ∈ (RunDedup.runDedup es).seen_urls ↔
        ∃ a ∈ (RunDedup.runDedup es).emitted, a.url = u) ∧
    (∀ k, k ∈ (RunDedup.runDedup es).seen_titles ↔
        ∃ a ∈ (RunDedup.runDedup es).emitted, a.titleDate = k) ∧
    (RunDedup.runDedup es).emitted.Pairwise
      (fun a b => a.url ≠ b.url ∧ a.titleDate ≠ b.titleDate) ∧
    (RunDedup.runDedup es).emitted.Sublist es ∧
    (∀ pre e post, es = pre ++ e :: post →
      ((RunDedup.runDedup (pre ++ [e])).emitted = (RunDedup.runDedup pre).emitted ↔
        ∃ a ∈ (RunDedup.runDedup pre).emitted,
          a.url = e.url ∨ a.titleDate = e.titleDate)) := by
  have base : ∀ l : List RunDedup.Entry,
      (∀ u, u ∈ (RunDedup.runDedup l).seen_urls ↔
          ∃ a ∈ (RunDedup.runDedup l).emitted, a.url = u) ∧
      (∀ k, k ∈ (RunDedup.runDedup l).seen_titles ↔
          ∃ a ∈ (RunDedup.runDedup l).emitted, a.titleDate = k) ∧
      (RunDedup.runDedup l).emitted.Pairwise
        (fun a b => a.url ≠ b.url ∧ a.titleDate ≠ b.titleDate) ∧
      (RunDedup.runDedup l).emitted.Sublist l := by
    intro l
    obtain ⟨g1, g2, g3, kept, hsub, hemit⟩ :=
      RunDedup.runDedup_go l ⟨[], [], []⟩ (by intro u; simp) (by intro k; simp)
        List.Pairwise.nil
    refine ⟨g1, g2, g3, ?_⟩
    show (RunDedup.runDedup l).emitted.Sublist l
    unfold RunDedup.runDedup
    rw [hemit]
    simpa using hsub
  obtain ⟨g1, g2, g3, g4⟩ := base es
  refine ⟨g1, g2, g3, g4, ?_⟩
  intro pre e post hes
  obtain ⟨p1, p2, p3, p4⟩ := base pre
  have hfold : RunDedup.runDedup (pre ++ [e]) =
      RunDedup.runDedupStep (RunDedup.runDedup pre) e := by
    unfold RunDedup.runDedup
    rw [List.foldl_append, List.foldl_cons, List.foldl_nil]
  rw [hfold]
  constructor
  · intro hsame
    by_cases hseen : e.url ∈ (RunDedup.runDedup pre).seen_urls ∨
        e.titleDate ∈ (RunDedup.runDedup pre).seen_titles
    · rcases hseen with hu | ht
      · obtain ⟨a, ha, hau⟩ := (p1 e.url).mp hu
        exact ⟨a, ha, Or.inl hau⟩
      · obtain ⟨a, ha, hat⟩ := (p2 e.titleDate).mp ht
        exact ⟨a, ha, Or.inr hat⟩
    · exfalso
      rw [RunDedup.runDedupStep_of_fresh _ e hseen] at hsame
      have : ((RunDedup.runDedup pre).emitted ++ [e]).length =
          (RunDedup.runDedup pre).emitted.length := congrArg List.length hsame
      simp at this
  · rintro ⟨a, ha, hcase⟩
    have hseen : e.url ∈ (RunDedup.runDedup pre).seen_urls ∨
        e.titleDate ∈ (RunDedup.runDedup pre).seen_titles := by
      rcases hcase with h | h
      · exact Or.inl ((p1 e.url).mpr ⟨a, ha, h⟩)
      · exact Or.inr ((p2 e.titleDate).mpr ⟨a, ha, h⟩)
    rw [RunDedup.runDedupStep_of_seen _ e hseen]

/-- Witness for C4: a three-entry run where the third entry repeats the
first URL; the repeat is discarded and the first occurrence kept. -/
theorem C4_run_level_dedup_witness :
    (RunDedup.runDedup
        [⟨"https://a.example/x", ("t1", "2024-06-07")⟩,
         ⟨"https://b.example/y", ("t2", "2024-06-07")⟩,
         ⟨"https://a.example/x", ("t3", "2024-06-07")⟩]).emitted.Sublist
      [⟨"https://a.example/x", ("t1", "2024-06-07")⟩,
       ⟨"https://b.example/y", ("t2", "2024-06-07")⟩,
       ⟨"https://a.example/x", ("t3", "2024-06-07")⟩] ∧
    (RunDedup.runDedup
        [⟨"https://a.example/x", ("t1", "2024-06-07")⟩,
         ⟨"https://b.example/y", ("t2", "2024-06-07")⟩,
         ⟨"https://a.example/x", ("t3", "2024-06-07")⟩]).emitted =
      [⟨"https://a.example/x", ("t1", "2024-06-07")⟩,
       ⟨"https://b.example/y", ("t2", "2024-06-07")⟩] :=
  ⟨(C4_run_level_dedup
      [⟨"https://a.example/x", ("t1", "2024-06-07")⟩,
       ⟨"https://b.example/y", ("t2", "2024-06-07")⟩,
       ⟨"https://a.example/x", ("t3", "2024-06-07")⟩]).2.2.2.1,
   rfl⟩

/-- Counterexample to C6 as stated: a fetched feed whose parse yields zero
entries and carries no bozo exception — the Google scraper appends no
ErrorRecord at all (the append is guarded by `if bozo_exception:`), so it
is not the case that every zero-entry parse appends a `parse` ErrorRecord. -/
theorem C6_counterexample :
    (ParseStage.ParseResult.mk 0 false none).entriesCount = 0 ∧
    ParseStage.google_parse_step "https://example.com/alerts" "solar"
      ⟨0, false, none⟩ = ([], false) :=
  ⟨rfl, rfl⟩

/-- C6 (amended): For every fetched feed whose parse yields zero entries,
the feed is skipped; the RSS scraper always appends an ErrorRecord with
error_type "parse", while the Google scraper appends such a record only
when a parse (bozo) exception is present, and appends nothing otherwise.
For every feed whose parse yields one or more entries, no parse ErrorRecord
is produced even when the malformed (bozo) flag is set, and its entries are
processed. -/
theorem C6_parse_stage_amended (feed_url kw : String)
    (d : ParseStage.ParseResult) :
    (d.entriesCount = 0 →
      ParseStage.rss_parse_step feed_url d =
        ([⟨feed_url, "parse", ParseStage.strOfExc d.bozoExc⟩], false) ∧
      (∀ exc, d.bozoExc = some exc →
        ParseStage.google_parse_step feed_url kw d =
          ([⟨feed_url, kw, "parse", exc⟩], false)) ∧
      (d.bozoExc = none →
        ParseStage.google_parse_step feed_url kw d = ([], false))) ∧
    (d.entriesCount ≠ 0 →
      ParseStage.rss_parse_step feed_url d = ([], true) ∧
      ParseStage.google_parse_step feed_url kw d = ([], true)) := by
  constructor
  · intro hzero
    refine ⟨?_, ?_, ?_⟩
    · unfold ParseStage.rss_parse_step
      simp [hzero]
    · intro exc hexc
      unfold ParseStage.google_parse_step
      simp [hzero, hexc]
    · intro hnone
      unfold ParseStage.google_parse_step
      simp [hzero, hnone]
  · intro hpos
    constructor
    · unfold ParseStage.rss_parse_step
      simp [hpos]
    · unfold ParseStage.google_parse_step
      simp [hpos]

/-- Witness for the amended C6: a zero-entry feed with a bozo exception in
both scrapers, and a bozo-flagged feed with entries present in both. -/
theorem C6_parse_stage_amended_witness :
    (ParseStage.rss_parse_step "https://example.com/rss" ⟨0, true, some "bad xml"⟩ =
      ([⟨"https://example.com/rss", "parse", "bad xml"⟩], false) ∧
      (∀ exc, (some "bad xml" : Option String) = some exc →
        ParseStage.google_parse_step "https://example.com/rss" "solar"
          ⟨0, true, some "bad xml"⟩ =
          ([⟨"https://example.com/rss", "solar", "parse", exc⟩], false)) ∧
      ((some "bad xml" : Option String) = none →
        ParseStage.google_parse_step "https://example.com/rss" "solar"
          ⟨0, true, some "bad xml"⟩ = ([], false))) ∧
    (ParseStage.rss_parse_step "https://example.com/rss2" ⟨7, true, some "warn"⟩ =
      ([], true) ∧
      ParseStage.google_parse_step "https://example.com/rss2" "solar"
        ⟨7, true, some "warn"⟩ = ([], true)) :=
  ⟨(C6_parse_stage_amended "https://example.com/rss" "solar"
      ⟨0, true, some "bad xml"⟩).1 rfl,
   (C6_parse_stage_amended "https://example.com/rss2" "solar"
      ⟨7, true, some "warn"⟩).2 (by decide)⟩

/-- C8: For every week-ending date e, the fixed-week Window Selector selects
exactly the dated files whose embedded filename date lies in the inclusive
7-day window [e − 6 days, e]; when no week-ending date is supplied, it
defaults to today − ((weekday_index_from_monday − 4) mod 7) days, the most
recent Friday on or before today. -/
theorem C8_fixed_week_window (entries : List (Int × String)) (e today dt : Int)
    (p : String) :
    Weekly.filter_files_for_week entries e 7 =
      .ok (entries.filter (fun x => e - 6 ≤ x.1 ∧ x.1 ≤ e)) ∧
    ((dt, p) ∈ entries.filter (fun x => e - 6 ≤ x.1 ∧ x.1 ≤ e) ↔
      ((dt, p) ∈ entries ∧ e - 6 ≤ dt ∧ dt ≤ e)) ∧
    Weekly.most_recent_friday today =
      today - (Calendar.weekday today - 4) % 7 ∧
    Calendar.weekday (Weekly.most_recent_friday today) = 4 ∧
    Weekly.most_recent_friday today ≤ today ∧
    today - Weekly.most_recent_friday today < 7 := by
  refine ⟨?_, ?_, rfl, ?_, ?_, ?_⟩
  · unfold Weekly.filter_files_for_week
    norm_num
  · constructor
    · intro hmem
      have h1 := List.mem_filter.mp hmem
      exact ⟨h1.1, of_decide_eq_true h1.2⟩
    · intro h
      exact List.mem_filter.mpr ⟨h.1, decide_eq_true h.2⟩
  · simp only [Weekly.most_recent_friday, Calendar.weekday]
    omega
  · simp only [Weekly.most_recent_friday, Calendar.weekday]
    omega
  · simp only [Weekly.most_recent_friday, Calendar.weekday]
    omega

/-- Witness for C8: with week_ending 2024-06-07 (a Friday), the files dated
2024-06-01 through 2024-06-07 are selected and 2024-05-31 / 2024-06-08 are
not; the default week-ending for Sunday 2024-06-09 is Friday 2024-06-07. -/
theorem C8_fixed_week_window_witness :
    Weekly.filter_files_for_week
      [(Calendar.toDays 2024 5 31, "google_alerts_articles_2024-05-31.csv"),
       (Calendar.toDays 2024 6 1, "google_alerts_articles_2024-06-01.csv"),
       (Calendar.toDays 2024 6 2, "google_alerts_articles_2024-06-02.csv"),
       (Calendar.toDays 2024 6 3, "google_alerts_articles_2024-06-03.csv"),
       (Calendar.toDays 2024 6 4, "google_alerts_articles_2024-06-04.csv"),
       (Calendar.toDays 2024 6 5, "google_alerts_articles_2024-06-05.csv"),
       (Calendar.toDays 2024 6 6, "google_alerts_articles_2024-06-06.csv"),
       (Calendar.toDays 2024 6 7, "google_alerts_articles_2024-06-07.csv"),
       (Calendar.toDays 2024 6 8, "google_alerts_articles_2024-06-08.csv")]
      (Calendar.toDays 2024 6 7) 7 =
      .ok
        [(Calendar.toDays 2024 6 1, "google_alerts_articles_2024-06-01.csv"),
         (Calendar.toDays 2024 6 2, "google_alerts_articles_2024-06-02.csv"),
         (Calendar.toDays 2024 6 3, "google_alerts_articles_2024-06-03.csv"),
         (Calendar.toDays 2024 6 4, "google_alerts_articles_2024-06-04.csv"),
         (Calendar.toDays 2024 6 5, "google_alerts_articles_2024-06-05.csv"),
         (Calendar.toDays 2024 6 6, "google_alerts_articles_2024-06-06.csv"),
         (Calendar.toDays 2024 6 7, "google_alerts_articles_2024-06-07.csv")] ∧
    Calendar.weekday (Calendar.toDays 2024 6 7) = 4 ∧
    Weekly.most_recent_friday (Calendar.toDays 2024 6 9) =
      Calendar.toDays 2024 6 7 ∧
    Calendar.weekday (Weekly.most_recent_friday (Calendar.toDays 2024 6 9)) = 4 :=
  ⟨rfl, by decide, by decide,
   (C8_fixed_week_window [] 0 (Calendar.toDays 2024 6 9) 0 "").2.2.2.1⟩

namespace LocalDedupe

theorem find_latest_go (ends : List Int) (m : Int) :
    ∃ r, ends.foldl
        (fun latest_end end_dt =>
          match latest_end with
          | none => some end_dt
          | some l => if end_dt > l then some end_dt else latest_end)
        (some m) = some r ∧
      (r = m ∨ r ∈ ends) ∧ m ≤ r ∧ ∀ x ∈ ends, x ≤ r := by
  induction ends generalizing m with
  | nil => exact ⟨m, rfl, Or.inl rfl, le_refl m, by intro x hx; cases hx⟩
  | cons e rest ih =>
    rw [List.foldl_cons]
    by_cases hgt : e > m
    · have hstep :
          (match some m with
            | none => some e
            | some l => if e > l then some e else some m) = some e := by
        simp [hgt]
      rw [hstep]
      obtain ⟨r, hfold, hsrc, hle, hub⟩ := ih e
      refine ⟨r, hfold, ?_, le_of_lt (lt_of_lt_of_le hgt hle), ?_⟩
      · rcases hsrc with rfl | hr
        · exact Or.inr (List.mem_cons_self _ _)
        · exact Or.inr (List.mem_cons_of_mem _ hr)
      · intro x hx
        rcases List.mem_cons.mp hx with rfl | hx'
        · exact hle
        · exact hub x hx'
    · have hstep :
          (match some m with
            | none => some e
            | some l => if e > l then some e else some m) = some m := by
        simp [hgt]
      rw [hstep]
      obtain ⟨r, hfold, hsrc, hle, hub⟩ := ih m
      refine ⟨r, hfold, hsrc.imp id (List.mem_cons_of_mem _), hle, ?_⟩
      intro x hx
      rcases List.mem_cons.mp hx with rfl | hx'
      · exact le_trans (not_lt.mp hgt) hle
      · exact hub x hx'

theorem find_latest_spec (ends : List Int) (hne : ends ≠ []) :
    ∃ m, find_latest_deduped_end_date ends = some m ∧
      m ∈ ends ∧ ∀ x ∈ ends, x ≤ m := by
  cases ends with
  | nil => exact absurd rfl hne
  | cons e rest =>
    unfold find_latest_deduped_end_date
    rw [List.foldl_cons]
    obtain ⟨r, hfold, hsrc, hle, hub⟩ := find_latest_go rest e
    refine ⟨r, hfold, ?_, ?_⟩
    · rcases hsrc with rfl | hr
      · exact List.mem_cons_self _ _
      · exact List.mem_cons_of_mem _ hr
    · intro x hx
      rcases List.mem_cons.mp hx with rfl | hx'
      · exact hle
      · exact hub x hx'

end LocalDedupe

/-- C9: For the incremental Window Selector policy: if at least one prior
rollup file matching the pattern <prefix>_<start>_to_<end>.csv exists, the
next run's start date is the day after the latest such end date; if no
prior rollup exists, the start date is the embedded date of the earliest
available daily file (the entries list is sorted ascending by date). -/
theorem C9_incremental_start (csv_entries : List (Int × String))
    (rollup_ends : List Int)
    (hsorted : csv_entries.Pairwise (fun a b => a.1 ≤ b.1)) :
    (∀ latest_end,
      LocalDedupe.find_latest_deduped_end_date rollup_ends = some latest_end →
        latest_end ∈ rollup_ends ∧ (∀ x ∈ rollup_ends, x ≤ latest_end) ∧
        LocalDedupe.determine_start_date csv_entries none rollup_ends =
          latest_end + 1) ∧
    (rollup_ends ≠ [] →
      LocalDedupe.find_latest_deduped_end_date rollup_ends ≠ none) ∧
    (rollup_ends = [] →
      LocalDedupe.determine_start_date csv_entries none rollup_ends =
        (csv_entries.headD (0, "")).1 ∧
      ∀ x ∈ csv_entries, (csv_entries.headD (0, "")).1 ≤ x.1) ∧
    (∀ start_dt dt p,
      (dt, p) ∈ LocalDedupe.selected_entries csv_entries start_dt ↔
        ((dt, p) ∈ csv_entries ∧ start_dt ≤ dt)) := by
  refine ⟨?_, ?_, ?_, ?_⟩
  · intro latest_end hlatest
    have hne : rollup_ends ≠ [] := by
      rintro rfl
      exact absurd hlatest (by simp [LocalDedupe.find_latest_deduped_end_date])
    obtain ⟨m, hm, hmem, hub⟩ := LocalDedupe.find_latest_spec rollup_ends hne
    rw [hm] at hlatest
    obtain rfl : m = latest_end := Option.some.inj hlatest
    refine ⟨hmem, hub, ?_⟩
    unfold LocalDedupe.determine_start_date
    rw [hm]
  · intro hne
    obtain ⟨m, hm, _, _⟩ := LocalDedupe.find_latest_spec rollup_ends hne
    rw [hm]
    exact Option.some_ne_none m
  · intro hnil
    subst hnil
    constructor
    · rfl
    · intro x hx
      cases csv_entries with
      | nil => cases hx
      | cons h t =>
        rcases List.mem_cons.mp hx with rfl | hx'
        · exact le_refl _
        · exact (List.pairwise_cons.mp hsorted).1 x hx'
  · intro start_dt dt p
    unfold LocalDedupe.selected_entries
    constructor
    · intro hmem
      have h1 := List.mem_filter.mp hmem
      exact ⟨h1.1, of_decide_eq_true h1.2⟩
    · intro h
      exact List.mem_filter.mpr ⟨h.1, decide_eq_true h.2⟩

/-- Witness for C9: a prior rollup ending 2024-06-07 with daily files dated
2024-06-08 and 2024-06-09 makes the next run start 2024-06-08 and select
both files. -/
theorem C9_incremental_start_witness :
    LocalDedupe.determine_start_date
      [(Calendar.toDays 2024 6 8, "rss_articles_2024-06-08.csv"),
       (Calendar.toDays 2024 6 9, "rss_articles_2024-06-09.csv")]
      none [Calendar.toDays 2024 6 7] = Calendar.toDays 2024 6 8 ∧
    LocalDedupe.selected_entries
      [(Calendar.toDays 2024 6 8, "rss_articles_2024-06-08.csv"),
       (Calendar.toDays 2024 6 9, "rss_articles_2024-06-09.csv")]
      (Calendar.toDays 2024 6 8) =
      [(Calendar.toDays 2024 6 8, "rss_articles_2024-06-08.csv"),
       (Calendar.toDays 2024 6 9, "rss_articles_2024-06-09.csv")] :=
  ⟨by
    have h :=
      ((C9_incremental_start
        [(Calendar.toDays 2024 6 8, "rss_articles_2024-06-08.csv"),
         (Calendar.toDays 2024 6 9, "rss_articles_2024-06-09.csv")]
        [Calendar.toDays 2024 6 7] (by decide)).1
        (Calendar.toDays 2024 6 7) (by decide)).2.2
    rw [h]
    decide,
   rfl⟩

/-- C10: For every feed URL: if the URL is pre-classified "hardened" (its
normalized URL or its domain is in the configured allow-list), the fetcher
skips tiers 1–2 and performs the request through a headless browser;
otherwise it first issues a direct HTTP request with browser-like headers,
and escalates to the anti-bot-bypass client if and only if the direct
request fails with HTTP status 403; when every applicable tier fails, the
fetch returns a failure message that is recorded as an ErrorRecord with
error_type "fetch" and the run proceeds to the next feed source. -/
theorem C10_tiered_fetcher (nu dom : String) (hUrls hDoms : List String)
    (feed_url : String) (env : Fetch.FetchEnv)
    (log : List ParseStage.ErrorRecord) :
    (Fetch._is_hardened nu dom hUrls hDoms = true ↔ nu ∈ hUrls ∨ dom ∈ hDoms) ∧
    Fetch.fetch_feed_with_timeout true env =
      Fetch.fetch_with_playwright env.playwright ∧
    (∀ c, env.direct = .success c →
      Fetch.fetch_feed_with_timeout false env = .ok c) ∧
    (∀ s m, env.direct = .httpError s m → s ≠ 403 →
      Fetch.fetch_feed_with_timeout false env =
        .error ("Requests failed: " ++ m)) ∧
    (∀ m, env.direct = .exn m →
      Fetch.fetch_feed_with_timeout false env =
        .error ("Requests exception: " ++ m)) ∧
    (∀ m, env.direct = .httpError 403 m →
      Fetch.fetch_feed_with_timeout false env =
        (match env.cloudscraper with
          | .success c => .ok c
          | .httpError _ cm => .error ("Cloudscraper failed: " ++ cm)
          | .exn cm => .error ("Cloudscraper failed: " ++ cm))) ∧
    (∀ hardened msg, Fetch.fetch_feed_with_timeout hardened env = .error msg →
      Fetch.fetch_stage feed_url hardened env log =
        (log ++ [⟨feed_url, "fetch", msg⟩], false)) ∧
    (∀ hardened c, Fetch.fetch_feed_with_timeout hardened env = .ok c →
      Fetch.fetch_stage feed_url hardened env log = (log, true)) := by
  refine ⟨?_, rfl, ?_, ?_, ?_, ?_, ?_, ?_⟩
  · unfold Fetch._is_hardened
    rw [Bool.or_eq_true]
    constructor
    · rintro (h | h)
      · exact Or.inl (List.elem_iff.mp h)
      · exact Or.inr (List.elem_iff.mp h)
    · rintro (h | h)
      · exact Or.inl (List.elem_iff.mpr h)
      · exact Or.inr (List.elem_iff.mpr h)
  · intro c hc
    unfold Fetch.fetch_feed_with_timeout
    rw [hc]
    rfl
  · intro s m hd hs
    unfold Fetch.fetch_feed_with_timeout
    rw [hd]
    simp [hs]
  · intro m hd
    unfold Fetch.fetch_feed_with_timeout
    rw [hd]
    rfl
  · intro m hd
    unfold Fetch.fetch_feed_with_timeout
    rw [hd]
    simp
  · intro hardened msg herr
    unfold Fetch.fetch_stage
    rw [herr]
  · intro hardened c hok
    unfold Fetch.fetch_stage
    rw [hok]

/-- Witness for C10: a hardened fetch goes to Playwright; a non-hardened 403
escalates to cloudscraper; a cloudscraper exception fails the fetch and is
logged with error_type "fetch". -/
theorem C10_tiered_fetcher_witness :
    (Fetch._is_hardened "https://h.example/feed" "h.example"
        ["https://h.example/feed"] ["h.example"] = true ↔
      "https://h.example/feed" ∈ ["https://h.example/feed"] ∨
        "h.example" ∈ ["h.example"]) ∧
    Fetch.fetch_feed_with_timeout true
      ⟨.exn "unused", .exn "unused", .ok "<rss/>"⟩ = .ok "<rss/>" ∧
    Fetch.fetch_feed_with_timeout false
      ⟨.httpError 403 "forbidden", .exn "boom", .ok "unused"⟩ =
      .error ("Cloudscraper failed: " ++ "boom") ∧
    Fetch.fetch_stage "https://x.example/feed" false
      ⟨.httpError 403 "forbidden", .exn "boom", .ok "unused"⟩ [] =
      ([⟨"https://x.example/feed", "fetch", "Cloudscraper failed: boom"⟩], false) :=
  ⟨(C10_tiered_fetcher "https://h.example/feed" "h.example"
      ["https://h.example/feed"] ["h.example"] "https://x.example/feed"
      ⟨.exn "u", .exn "u", .ok "u"⟩ []).1,
   rfl, rfl,
   (C10_tiered_fetcher "nu" "dom" [] [] "https://x.example/feed"
      ⟨.httpError 403 "forbidden", .exn "boom", .ok "unused"⟩ []).2.2.2.2.2.2.1
     false "Cloudscraper failed: boom" rfl⟩

namespace Keywords

theorem re_search_word_iff (pat s : List Char) :
    re_search_word pat s = true ↔ OccursWholeWord pat s := by
  unfold re_search_word OccursWholeWord
  rw [List.any_eq_true]
  constructor
  · rintro ⟨i, hi, hm⟩
    unfold matchAt at hm
    simp only [Bool.and_eq_true, decide_eq_true_eq, beq_iff_eq] at hm
    exact ⟨i, hm.1.1.1, hm.1.1.2, hm.1.2, hm.2⟩
  · rintro ⟨i, hle, htake, hb1, hb2⟩
    refine ⟨i, ?_, ?_⟩
    · rw [List.mem_range]
      omega
    · unfold matchAt
      simp only [Bool.and_eq_true, decide_eq_true_eq, beq_iff_eq]
      exact ⟨⟨⟨hle, htake⟩, hb1⟩, hb2⟩

theorem isWordCharAt_nil (p : Nat) : isWordCharAt [] p = false := by
  cases p <;> rfl

theorem boundary_nil (p : Nat) : boundary [] p = false := by
  unfold boundary
  rw [isWordCharAt_nil, isWordCharAt_nil]
  simp

theorem not_occurs_nil (pat : List Char) : ¬ OccursWholeWord pat [] := by
  rintro ⟨i, hle, htake, hb1, hb2⟩
  rw [boundary_nil] at hb1
  exact Bool.false_ne_true hb1

end Keywords

/-- C7: For every text and every configured keyword set: a plain keyword is
triggered if and only if it occurs in the normalized text as a whole-word
boundary match (text "catering" does not trigger keyword "cat"; text
"cat food" does), and a compound keyword containing "&" is triggered if and
only if every "&"-separated part occurs in the text as a whole-word boundary
match, in any order. -/
theorem C7_keyword_matching (text kw : String) (keywords : List String) :
    kw ∈ Keywords.find_keywords text keywords ↔
      kw ∈ keywords ∧
      (if Keywords.contains_amp kw = true then
        Keywords.compound_parts kw ≠ [] ∧
        ∀ p ∈ Keywords.compound_parts kw,
          Keywords.OccursWholeWord p.data (Keywords.normalize text).data
      else
        Keywords.OccursWholeWord kw.data (Keywords.normalize text).data) := by
  by_cases htext : text = ""
  · subst htext
    have hempty : Keywords.find_keywords "" keywords = [] := rfl
    have hnil : (Keywords.normalize "").data = [] := rfl
    rw [hempty]
    constructor
    · intro h
      cases h
    · rintro ⟨hkw, hrest⟩
      exfalso
      split_ifs at hrest with hamp
      · obtain ⟨hne, hall⟩ := hrest
        obtain ⟨p, hp⟩ := List.exists_mem_of_ne_nil _ hne
        have := hall p hp
        rw [hnil] at this
        exact Keywords.not_occurs_nil _ this
      · rw [hnil] at hrest
        exact Keywords.not_occurs_nil _ hrest
  · have hfk : Keywords.find_keywords text keywords =
        keywords.filter (fun kw =>
          if Keywords.contains_amp kw then
            !(Keywords.compound_parts kw).isEmpty &&
              (Keywords.compound_parts kw).all
                (fun p =>
                  Keywords.re_search_word p.data (Keywords.normalize text).data)
          else
            Keywords.re_search_word kw.data (Keywords.normalize text).data) := by
      unfold Keywords.find_keywords
      rw [if_neg htext]
    rw [hfk]
    simp only [List.mem_filter]
    apply and_congr_right
    intro _
    split_ifs with hamp
    · show (!(Keywords.compound_parts kw).isEmpty &&
          (Keywords.compound_parts kw).all
            (fun p =>
              Keywords.re_search_word p.data (Keywords.normalize text).data)) =
          true ↔ _
      rw [Bool.and_eq_true, List.all_eq_true]
      constructor
      · rintro ⟨h1, h2⟩
        refine ⟨?_, fun p hp => (Keywords.re_search_word_iff _ _).mp (h2 p hp)⟩
        intro hparts
        rw [hparts] at h1
        exact absurd h1 (by simp)
      · rintro ⟨h1, h2⟩
        refine ⟨?_, fun p hp => (Keywords.re_search_word_iff _ _).mpr (h2 p hp)⟩
        cases hparts : Keywords.compound_parts kw with
        | nil => exact absurd hparts h1
        | cons a l => rfl
    · exact Keywords.re_search_word_iff _ _

/-- Witness for C7: "cat food" triggers "cat", "catering" does not;
"solar & tariff" triggers on both words whole and in either order, and not
on a text containing only one of them. -/
theorem C7_keyword_matching_witness :
    ("cat" ∈ Keywords.find_keywords "cat food" ["cat"]) ∧
    ("cat" ∉ Keywords.find_keywords "catering" ["cat"]) ∧
    ("solar & tariff" ∈
      Keywords.find_keywords "the tariff hits solar today" ["solar & tariff"]) ∧
    ("solar & tariff" ∉ Keywords.find_keywords "solar panels" ["solar & tariff"]) :=
  ⟨(C7_keyword_matching "cat food" "cat" ["cat"]).mpr
    ⟨by decide, by
      rw [if_neg (by decide : ¬Keywords.contains_amp "cat" = true)]
      exact (Keywords.re_search_word_iff _ _).mp (by decide)⟩,
   by decide, by decide, by decide⟩
